import Mathlib

/-!
Shallow embedding of the beat-retinanet data pipeline
(src/retinanet/dataloader.py) and of the downsampling TCN backbone
(src/retinanet/dstcn.py), together with theorems settling the claims
about them.

Conventions of the embedding:
- torch float tensors are modelled over the rationals; a dense target is
  a pair of rows (row 0 = beats, row 1 = downbeats), each a list of ℚ;
- Python int() on a nonnegative float is Int.floor followed by toNat;
- numpy / torch advanced indexing with a negative index i with
  -len <= i < 0 addresses position len + i (wrap-around), which is the
  behavior of shifted_target[0, ind] = 1 for negative entries of ind;
- random draws (offsets, gates, Gaussian shifts) are taken as explicit
  parameters, so each randomized transform is a deterministic function
  of its random inputs.
-/

namespace BeatRetina

/-- One row of an interval tensor: (start, stop, class id), stored as
floats in the code, hence ℚ here. -/
abbrev Row := ℚ × ℚ × ℚ

/-! ### Interval builder (BeatDataset.make_intervals, dataloader.py 386-430) -/

/-- Ascending indices of the nonzero entries of a 1-D tensor
(torch.nonzero followed by squeeze). -/
def nonzero_indices (row : List ℚ) : List ℕ :=
  (List.range row.length).filter (fun i => row.getD i 0 ≠ 0)

/-- Inner helper make_interval_subset: one (current, next, class_id) row
per consecutive pair of the given ascending locations. -/
def make_interval_subset (samples : List ℕ) (class_id : ℚ) : List Row :=
  (samples.zip samples.tail).map (fun p => ((p.1 : ℚ), (p.2 : ℚ), class_id))

/-- BeatDataset.make_intervals: if either channel has fewer than two
active indices (the squeeze of a single location raises IndexError,
which the except branch also turns into the empty tensor), return no
rows; otherwise concatenate the consecutive-pair rows of the downbeat
channel (class 0) and of the beat channel (class 1). -/
def make_intervals (target : List ℚ × List ℚ) : List Row :=
  let beat_locations := nonzero_indices target.1
  let downbeat_locations := nonzero_indices target.2
  if downbeat_locations.length < 2 ∨ beat_locations.length < 2 then []
  else
    make_interval_subset downbeat_locations 0 ++ make_interval_subset beat_locations 1

/-! ### Dataset length (BeatDataset.__len__, dataloader.py 195-200) -/

/-- BeatDataset.__len__: the file count for the four listed subsets,
examples_per_epoch for every other subset. -/
def dataset_len (subset : String) (num_files examples_per_epoch : ℕ) : ℕ :=
  if subset = "test" ∨ subset = "val" ∨ subset = "full-val" ∨ subset = "full-test" then
    num_files
  else
    examples_per_epoch

/-! ### Batch collator (collater, dataloader.py 14-47) -/

/-- The sentinel row marking a padded, non-object entry. -/
def sentinel_row : Row := (-1, -1, -1)

/-- max over the per-example interval counts of a batch. -/
def max_num_annots (annots : List (List Row)) : ℕ :=
  annots.foldr (fun a m => max a.length m) 0

/-- collater, restricted to its interval argument: allocate a
(batch, max_num_annots, 3) tensor of -1 and copy each example into the
prefix rows; when every example is empty, allocate (batch, 1, 3) of -1. -/
def collater (annots : List (List Row)) : List (List Row) :=
  if 0 < max_num_annots annots then
    annots.map (fun a => a ++ List.replicate (max_num_annots annots - a.length) sentinel_row)
  else
    annots.map (fun _ => [sentinel_row])

/-! ### Target renderer (BeatDataset.load_data, dataloader.py 284-304) -/

/-- N = int(t * target_sample_rate) + 1 with t = audio_len / sr and
target_sample_rate = sr / factor. -/
def target_len (audio_len sr factor : ℕ) : ℕ :=
  (⌊((audio_len : ℚ) / (sr : ℚ)) * ((sr : ℚ) / (factor : ℚ))⌋).toNat + 1

/-- A source-rate sample position converted to seconds and then to the
target rate (the same three-step conversion the code performs). -/
def rescale_sample (s sr factor : ℕ) : ℚ :=
  ((s : ℚ) / (sr : ℚ)) * ((sr : ℚ) / (factor : ℚ))

/-- Render one channel: drop rescaled positions that are not < N, then
truncate to int and set those indices to one. -/
def render_channel (N : ℕ) (samples : List ℕ) (sr factor : ℕ) : List ℚ :=
  let kept :=
    ((samples.map (fun s => rescale_sample s sr factor)).filter
      (fun q => q < (N : ℚ))).map (fun q => (⌊q⌋).toNat)
  (List.range N).map (fun j => if j ∈ kept then (1 : ℚ) else 0)

/-- The dense 2×N target built by load_data from the parsed beat and
downbeat source-rate sample positions. -/
def render_target (audio_len sr factor : ℕ) (beat_samples downbeat_samples : List ℕ) :
    List ℚ × List ℚ :=
  let N := target_len audio_len sr factor
  (render_channel N beat_samples sr factor, render_channel N downbeat_samples sr factor)

/-! ### Ballroom annot parser (BeatDataset.load_annot, dataloader.py 314-384) -/

/-- One parsed line of a ballroom .beats file: a time in seconds and a
beat ordinal (1 = downbeat). -/
structure AnnotLine where
  time_sec : ℚ
  beat : ℕ
deriving DecidableEq

/-- Post-hoc guess of the time signature from the maximum beat ordinal. -/
def infer_time_signature (m : ℕ) : String :=
  if m = 2 then "2/4" else if m = 3 then "3/4" else if m = 4 then "4/4" else "?"

/-- int(float(time_sec) * audio_sample_rate); the times are nonnegative,
so Python truncation agrees with the floor. -/
def beat_time_samples (sr : ℕ) (t : ℚ) : ℤ := ⌊t * (sr : ℚ)⌋

/-- BeatDataset.load_annot on already-split ballroom lines: every line
contributes a beat sample position and its ordinal, lines with ordinal 1
additionally contribute the same position as a downbeat, and the time
signature is guessed from the maximum ordinal. -/
def load_annot (sr : ℕ) (lines : List AnnotLine) : List ℤ × List ℤ × List ℕ × String :=
  let beat_samples := lines.map (fun l => beat_time_samples sr l.time_sec)
  let beat_indices := lines.map (fun l => l.beat)
  let downbeat_samples :=
    (lines.filter (fun l => l.beat = 1)).map (fun l => beat_time_samples sr l.time_sec)
  (beat_samples, downbeat_samples, beat_indices,
    infer_time_signature (beat_indices.foldr max 0))

/-! ### Silence augmentation (apply_augmentations, dataloader.py 443-449) -/

/-- Zero the entries with index in [start, stop); indices past the end of
the list are silently ignored, as slice assignment in torch is. -/
def zero_range (xs : List ℚ) (start stop : ℕ) : List ℚ :=
  xs.mapIdx (fun i x => if start ≤ i ∧ i < stop then 0 else x)

/-- The drop-contiguous-frames branch: zero_size = int(0.1 * cfg_length)
samples are zeroed in the audio starting at the random offset start, and
the same untranslated index range [start, start + zero_size) is zeroed
in both rows of the dense target. -/
def silence_aug (cfg_length : ℕ) (audio : List ℚ) (target : List ℚ × List ℚ)
    (start : ℕ) : List ℚ × (List ℚ × List ℚ) :=
  let zero_size := (⌊(cfg_length : ℚ) * (1 / 10)⌋).toNat
  let stop := start + zero_size
  (zero_range audio start stop, (zero_range target.1 start stop, zero_range target.2 start stop))

/-! ### Temporal jitter (apply_augmentations, dataloader.py 451-478) -/

/-- Indices that are beats but not downbeats (the logical_and mask). -/
def jitter_source_beats (L : ℕ) (row0 row1 : List ℚ) : List ℕ :=
  (List.range L).filter (fun i => row0.getD i 0 = 1 ∧ row1.getD i 0 ≠ 1)

/-- Indices that are downbeats (the target[1,:] == 1 mask). -/
def jitter_source_downbeats (L : ℕ) (row1 : List ℚ) : List ℕ :=
  (List.range L).filter (fun i => row1.getD i 0 = 1)

/-- torch advanced-indexing semantics for an in-range signed index: a
negative i addresses position L + i. -/
def wrap_index (L : ℕ) (i : ℤ) : ℤ := if i < 0 then i + (L : ℤ) else i

/-- The shift-targets branch. The shift tensors are built with size
(1, ind.shape[-1]) where ind has shape (K, 1), so each channel receives
one broadcast shift (beat_shift for non-downbeat beats, dbeat_shift for
downbeats), truncated to integers by .long(). Shifted indices are kept
only when < L (no lower-bound check), and the survivors are written into
a fresh 2×L target, downbeats into both rows; negative in-range indices
land at L + i by wrap-around. -/
def jitter_target (L : ℕ) (row0 row1 : List ℚ) (beat_shift dbeat_shift : ℤ) :
    List ℚ × List ℚ :=
  let beat_ind :=
    ((jitter_source_beats L row0 row1).map (fun (i : ℕ) => (i : ℤ) + beat_shift)).filter
      (fun i => i < (L : ℤ))
  let dbeat_ind :=
    ((jitter_source_downbeats L row1).map (fun (i : ℕ) => (i : ℤ) + dbeat_shift)).filter
      (fun i => i < (L : ℤ))
  ((List.range L).map (fun (j : ℕ) =>
      if (j : ℤ) ∈ beat_ind.map (wrap_index L) ∨ (j : ℤ) ∈ dbeat_ind.map (wrap_index L)
      then (1 : ℚ) else 0),
   (List.range L).map (fun (j : ℕ) =>
      if (j : ℤ) ∈ dbeat_ind.map (wrap_index L) then (1 : ℚ) else 0))

/-! ### Peak normalization (dataloader.py 274-275 and 552-553) -/

/-- audio.abs().max(): the maximum absolute sample value (0 on the empty
signal, where torch would error instead). -/
def peak (xs : List ℚ) : ℚ := xs.foldr (fun x m => max |x| m) 0

/-- audio /= audio.abs().max(). -/
def normalize_audio (xs : List ℚ) : List ℚ := xs.map (fun x => x / peak xs)

/-! ### Downsampling TCN backbone (dstcn.py 26-148) -/

/-- The shape-relevant configuration of a torch.nn.Conv1d. -/
structure Conv1dSpec where
  in_ch : ℕ
  out_ch : ℕ
  kernel_size : ℕ
  stride : ℕ
deriving DecidableEq

/-- The shape-relevant content of a dsTCNBlock: its main convolution and
its residual shortcut convolution. -/
structure DsTCNBlock where
  in_ch : ℕ
  out_ch : ℕ
  kernel_size : ℕ
  stride : ℕ
  dilation : ℕ
  conv1 : Conv1dSpec
  res_conv : Conv1dSpec
deriving DecidableEq

/-- dsTCNBlock.__init__: conv1 is (in_ch → out_ch, kernel_size, stride),
res_conv is a 1×1 convolution (in_ch → out_ch) with the same stride. -/
def mk_block (in_ch out_ch kernel_size stride dilation : ℕ) : DsTCNBlock :=
  { in_ch := in_ch, out_ch := out_ch, kernel_size := kernel_size, stride := stride,
    dilation := dilation,
    conv1 := ⟨in_ch, out_ch, kernel_size, stride⟩,
    res_conv := ⟨in_ch, out_ch, 1, stride⟩ }

/-- The channel recurrence of the dsTCNModel construction loop:
in_ch = ninputs if n == 0 else previous out_ch,
out_ch = channel_width if n == 0 else in_ch + channel_growth. -/
def block_channels (ninputs channel_width channel_growth : ℕ) : ℕ → ℕ × ℕ
  | 0 => (ninputs, channel_width)
  | n + 1 =>
    let prev := block_channels ninputs channel_width channel_growth n
    (prev.2, prev.2 + channel_growth)

/-- dsTCNModel.__init__: the list of nblocks blocks, block n with the
channels of the recurrence and dilation dilation_growth ^ (n % stack_size). -/
def mk_blocks (ninputs channel_width channel_growth kernel_size stride
    dilation_growth stack_size nblocks : ℕ) : List DsTCNBlock :=
  (List.range nblocks).map (fun n =>
    let ch := block_channels ninputs channel_width channel_growth n
    mk_block ch.1 ch.2 kernel_size stride (dilation_growth ^ (n % stack_size)))

/-! ### Helper lemmas -/

theorem length_make_interval_subset (samples : List ℕ) (c : ℚ) :
    (make_interval_subset samples c).length = samples.length - 1 := by
  simp [make_interval_subset, List.length_zip, List.length_tail]

theorem mem_make_interval_subset_class {samples : List ℕ} {c : ℚ} {r : Row}
    (h : r ∈ make_interval_subset samples c) : r.2.2 = c := by
  simp only [make_interval_subset, List.mem_map] at h
  obtain ⟨p, _, rfl⟩ := h
  rfl

theorem countP_make_interval_subset_self (samples : List ℕ) (c : ℚ) :
    (make_interval_subset samples c).countP (fun r => r.2.2 = c) = samples.length - 1 := by
  rw [← length_make_interval_subset samples c]
  rw [List.countP_eq_length]
  intro r hr
  simpa using mem_make_interval_subset_class hr

theorem countP_make_interval_subset_other (samples : List ℕ) {c c2 : ℚ} (h : c ≠ c2) :
    (make_interval_subset samples c).countP (fun r => r.2.2 = c2) = 0 := by
  rw [List.countP_eq_zero]
  intro r hr
  have := mem_make_interval_subset_class hr
  simp [this, h]

/-! ### Claims -/

/-- C1 counterexample: a dense target whose beat channel has three
active indices and whose downbeat channel has none. The claim predicts
3 - 1 = 2 class-1 intervals from the beat channel regardless of the
other channel, but make_intervals returns no rows at all, because it
bails out when either channel has fewer than two active indices. -/
theorem C1_counterexample :
    (nonzero_indices ([1, 1, 1] : List ℚ)).length = 3 ∧
    ¬ ((make_intervals (([1, 1, 1] : List ℚ), ([0, 0, 0] : List ℚ))).countP
        (fun r => r.2.2 = (1 : ℚ)) =
      (nonzero_indices ([1, 1, 1] : List ℚ)).length - 1) := by
  constructor
  · decide
  · decide

/-- C1 (amended): when BOTH channels have at least two active indices,
the class-0 interval count is (downbeat count - 1) and the class-1
interval count is (beat count - 1); when EITHER channel has fewer than
two active indices, make_intervals returns no intervals at all (so a
well-populated channel is not independent of the other channel). -/
theorem C1_make_intervals_counts (target : List ℚ × List ℚ) :
    (2 ≤ (nonzero_indices target.2).length → 2 ≤ (nonzero_indices target.1).length →
      (make_intervals target).countP (fun r => r.2.2 = (0 : ℚ)) =
          (nonzero_indices target.2).length - 1 ∧
      (make_intervals target).countP (fun r => r.2.2 = (1 : ℚ)) =
          (nonzero_indices target.1).length - 1) ∧
    ((nonzero_indices target.2).length < 2 ∨ (nonzero_indices target.1).length < 2 →
      make_intervals target = []) := by
  constructor
  · intro hd hb
    have hcond : ¬ ((nonzero_indices target.2).length < 2 ∨
        (nonzero_indices target.1).length < 2) := by omega
    unfold make_intervals
    simp only [hcond, if_false, ite_false, List.countP_append]
    constructor
    · rw [countP_make_interval_subset_self, countP_make_interval_subset_other _ (by norm_num : (1 : ℚ) ≠ 0)]
      omega
    · rw [countP_make_interval_subset_self, countP_make_interval_subset_other _ (by norm_num : (0 : ℚ) ≠ 1)]
      omega
  · intro h
    unfold make_intervals
    simp only [h, if_true, ite_true]

/-- C1 witness: the target with downbeats at 0, 2 and beats at 0, 1, 2
gets 1 class-0 and 2 class-1 intervals; the counterexample target, with
an under-populated downbeat channel, gets none. -/
theorem C1_witness :
    ((make_intervals (([1, 1, 1] : List ℚ), ([1, 0, 1] : List ℚ))).countP
        (fun r => r.2.2 = (0 : ℚ)) =
      (nonzero_indices ([1, 0, 1] : List ℚ)).length - 1 ∧
    (make_intervals (([1, 1, 1] : List ℚ), ([1, 0, 1] : List ℚ))).countP
        (fun r => r.2.2 = (1 : ℚ)) =
      (nonzero_indices ([1, 1, 1] : List ℚ)).length - 1) ∧
    make_intervals (([1, 1, 1] : List ℚ), ([0, 1, 0] : List ℚ)) = [] :=
  ⟨(C1_make_intervals_counts (([1, 1, 1] : List ℚ), ([1, 0, 1] : List ℚ))).1
      (by decide) (by decide),
   (C1_make_intervals_counts (([1, 1, 1] : List ℚ), ([0, 1, 0] : List ℚ))).2
      (by decide)⟩

/-- C2: the silence augmentation zeroes the window [start, start + 10%
of the configured audio length) in the audio, but reuses the SAME
audio-rate bounds on the downsampled target instead of scaling them by
the downsample factor. Failing input: configured length 20, downsample
factor 4 (target length 5), offset start = 10. The audio is zeroed on
[10, 12), yet the target slice [10, 12) is past the 5-sample target, so
the target comes back unchanged: its index 2 — the window the claim
requires to be zeroed, 10/4 = 2 — still holds a 1, so audio and target
are no longer temporally aligned. -/
theorem C2_silence_misaligned :
    silence_aug 20 (List.replicate 20 1)
        (([0, 0, 1, 0, 0] : List ℚ), ([0, 0, 1, 0, 0] : List ℚ)) 10 =
      (List.replicate 10 1 ++ [0, 0] ++ List.replicate 8 1,
        (([0, 0, 1, 0, 0] : List ℚ), ([0, 0, 1, 0, 0] : List ℚ))) ∧
    (([0, 0, 1, 0, 0] : List ℚ)).getD 2 0 = 1 := by
  have hz0 : ⌊((20 : ℕ) : ℚ) * (1 / 10)⌋ = 2 := by norm_num
  have hz : (⌊((20 : ℕ) : ℚ) * (1 / 10)⌋).toNat = 2 := by rw [hz0]; rfl
  constructor
  · simp only [silence_aug]
    rw [hz]
    decide
  · decide

/-- C4 counterexample: for the subset full-train with 5 files and
examples_per_epoch = 1000, the length is 1000, not the file count 5:
full-train is not in the list of file-count subsets. -/
theorem C4_counterexample :
    dataset_len "full-train" 5 1000 = 1000 ∧ ¬ dataset_len "full-train" 5 1000 = 5 := by
  constructor
  · rfl
  · decide

/-- C4 (amended): the length is the literal file count exactly for the
subsets val, test, full-val and full-test; every other subset, in
particular train AND full-train, gets the synthetic examples_per_epoch. -/
theorem C4_dataset_len (num_files examples_per_epoch : ℕ) :
    dataset_len "val" num_files examples_per_epoch = num_files ∧
    dataset_len "test" num_files examples_per_epoch = num_files ∧
    dataset_len "full-val" num_files examples_per_epoch = num_files ∧
    dataset_len "full-test" num_files examples_per_epoch = num_files ∧
    dataset_len "train" num_files examples_per_epoch = examples_per_epoch ∧
    dataset_len "full-train" num_files examples_per_epoch = examples_per_epoch := by
  refine ⟨?_, ?_, ?_, ?_, ?_, ?_⟩ <;> rfl

/-- C6: the five ballroom lines 0.5/1, 1.5/2, 2.5/3, 3.5/4, 4.5/1 at
sample rate 44100 parse to the expected beat positions, downbeat
positions (exactly the ordinal-1 lines, at the same positions), and
time signature 4/4 from the maximum ordinal 4; the ordinal-maximum map
sends 2, 3, 4 to 2/4, 3/4, 4/4 and anything else to the unknown marker. -/
theorem C6_load_annot_scenario :
    load_annot 44100
        [⟨1/2, 1⟩, ⟨3/2, 2⟩, ⟨5/2, 3⟩, ⟨7/2, 4⟩, ⟨9/2, 1⟩] =
      ([22050, 66150, 110250, 154350, 198450], [22050, 198450], [1, 2, 3, 4, 1], "4/4") ∧
    infer_time_signature 2 = "2/4" ∧ infer_time_signature 3 = "3/4" ∧
    infer_time_signature 4 = "4/4" ∧ infer_time_signature 5 = "?" ∧
    infer_time_signature 1 = "?" := by
  have h1 : beat_time_samples 44100 (1 / 2) = 22050 := by norm_num [beat_time_samples]
  have h2 : beat_time_samples 44100 (3 / 2) = 66150 := by norm_num [beat_time_samples]
  have h3 : beat_time_samples 44100 (5 / 2) = 110250 := by norm_num [beat_time_samples]
  have h4 : beat_time_samples 44100 (7 / 2) = 154350 := by norm_num [beat_time_samples]
  have h5 : beat_time_samples 44100 (9 / 2) = 198450 := by norm_num [beat_time_samples]
  refine ⟨?_, rfl, rfl, rfl, rfl, rfl⟩
  simp only [load_annot, List.map_cons, List.map_nil, List.filter_cons, List.filter_nil,
    List.foldr_cons, List.foldr_nil, h1, h2, h3, h4, h5]
  norm_num [infer_time_signature]
  exact ⟨h1, h5⟩

theorem length_le_max_num_annots {a : List Row} {annots : List (List Row)}
    (h : a ∈ annots) : a.length ≤ max_num_annots annots := by
  induction h with
  | head t =>
    simp only [max_num_annots, List.foldr_cons]
    exact le_max_left _ _
  | tail b _ ih =>
    simp only [max_num_annots, List.foldr_cons] at *
    exact le_trans ih (le_max_right _ _)

theorem collater_getElem? (batch : List (List Row)) (i : ℕ) (hi : i < batch.length) :
    (collater batch)[i]? =
      some ((batch.getD i []) ++
        List.replicate (max (max_num_annots batch) 1 - (batch.getD i []).length)
          sentinel_row) := by
  have hget : batch[i]? = some (batch.get ⟨i, hi⟩) := List.getElem?_eq_getElem hi
  have hgd : batch.getD i [] = batch.get ⟨i, hi⟩ := by
    rw [List.getD_eq_getElem?_getD, hget]
    rfl
  have hmem : batch.get ⟨i, hi⟩ ∈ batch := batch.get_mem i hi
  by_cases hpos : 0 < max_num_annots batch
  · have hmax : max (max_num_annots batch) 1 = max_num_annots batch :=
      max_eq_left hpos
    simp only [collater, if_pos hpos, List.getElem?_map, hget, hgd, hmax]
    rfl
  · have hz : max_num_annots batch = 0 := Nat.eq_zero_of_not_pos hpos
    have ha : batch.get ⟨i, hi⟩ = [] := by
      have hlen := length_le_max_num_annots hmem
      rw [hz] at hlen
      exact List.eq_nil_of_length_eq_zero (Nat.le_zero.mp hlen)
    have hco : collater batch = batch.map (fun _ => [sentinel_row]) := by
      simp only [collater, if_neg hpos]
    rw [hco, List.getElem?_map, hget, hgd, ha, hz]
    rfl

/-- C7: the collator keeps the batch size, pads every example's interval
list with sentinel rows (-1, -1, -1) up to max(max interval count, 1)
rows while keeping the example's own rows as the prefix, and on a batch
with interval counts [0, 3, 1] produces shape (3, 3, 3) with all rows
beyond an example's own count equal to the sentinel. -/
theorem C7_collater_padding (batch : List (List Row)) (i : ℕ) (hi : i < batch.length) :
    (collater batch).length = batch.length ∧
    (collater batch)[i]? =
      some ((batch.getD i []) ++
        List.replicate (max (max_num_annots batch) 1 - (batch.getD i []).length)
          sentinel_row) ∧
    ((batch.getD i []) ++
        List.replicate (max (max_num_annots batch) 1 - (batch.getD i []).length)
          sentinel_row).length = max (max_num_annots batch) 1 ∧
    collater [[], [((0 : ℚ), (2 : ℚ), (0 : ℚ)), (2, 4, 0), (0, 4, 1)], [(1, 3, 1)]] =
      [[sentinel_row, sentinel_row, sentinel_row],
       [(0, 2, 0), (2, 4, 0), (0, 4, 1)],
       [(1, 3, 1), sentinel_row, sentinel_row]] := by
  refine ⟨?_, collater_getElem? batch i hi, ?_, ?_⟩
  · unfold collater
    by_cases hpos : 0 < max_num_annots batch <;> simp [hpos]
  · have hgd : batch.getD i [] = batch.get ⟨i, hi⟩ := by
      rw [List.getD_eq_getElem?_getD, List.getElem?_eq_getElem hi]
      rfl
    have hle : (batch.getD i []).length ≤ max (max_num_annots batch) 1 := by
      rw [hgd]
      exact le_trans (length_le_max_num_annots (batch.get_mem i hi)) (le_max_left _ _)
    rw [List.length_append, List.length_replicate]
    omega
  · decide

/-- C7 witness: the batch with interval counts [0, 3, 1] has 3 padded
examples, and example 2 is its single row followed by two sentinels. -/
theorem C7_collater_padding_witness :
    (collater [[], [((0 : ℚ), (2 : ℚ), (0 : ℚ)), (2, 4, 0), (0, 4, 1)], [(1, 3, 1)]]).length = 3 ∧
    (collater [[], [((0 : ℚ), (2 : ℚ), (0 : ℚ)), (2, 4, 0), (0, 4, 1)], [(1, 3, 1)]])[2]? =
      some [(1, 3, 1), sentinel_row, sentinel_row] := by
  have h := C7_collater_padding
    [[], [((0 : ℚ), (2 : ℚ), (0 : ℚ)), (2, 4, 0), (0, 4, 1)], [(1, 3, 1)]] 2 (by decide)
  refine ⟨h.1.trans (by decide), ?_⟩
  rw [h.2.1]
  decide

theorem mk_blocks_getElem? (ni w g k s dg ss nb n : ℕ) (hn : n < nb) :
    (mk_blocks ni w g k s dg ss nb)[n]? =
      some (mk_block (block_channels ni w g n).1 (block_channels ni w g n).2
        k s (dg ^ (n % ss))) := by
  simp only [mk_blocks, List.getElem?_map, List.getElem?_range hn]
  rfl

/-- C8: in the backbone block list, block 0 maps the configured input
channel count to channel_width; for every later block, the input channel
count equals the previous block's output count and the output count is
that value plus channel_growth; and every block's residual shortcut is a
1×1 convolution with the block's stride from the block's in_ch to its
out_ch, matching the main path for the addition. -/
theorem C8_backbone_channels (ni w g k s dg ss nb n : ℕ) (hn : n + 1 < nb) :
    ∃ b0 bn bn1 : DsTCNBlock,
      (mk_blocks ni w g k s dg ss nb)[0]? = some b0 ∧
      (mk_blocks ni w g k s dg ss nb)[n]? = some bn ∧
      (mk_blocks ni w g k s dg ss nb)[n + 1]? = some bn1 ∧
      b0.in_ch = ni ∧ b0.out_ch = w ∧
      bn1.in_ch = bn.out_ch ∧ bn1.out_ch = bn.out_ch + g ∧
      ∀ b ∈ mk_blocks ni w g k s dg ss nb,
        b.res_conv.in_ch = b.in_ch ∧ b.res_conv.out_ch = b.out_ch ∧
        b.res_conv.kernel_size = 1 ∧ b.res_conv.stride = b.stride := by
  refine ⟨_, _, _, mk_blocks_getElem? ni w g k s dg ss nb 0 (by omega),
    mk_blocks_getElem? ni w g k s dg ss nb n (by omega),
    mk_blocks_getElem? ni w g k s dg ss nb (n + 1) hn,
    rfl, rfl, ?_, ?_, ?_⟩
  · simp [mk_block, block_channels]
  · simp [mk_block, block_channels]
  · intro b hb
    simp only [mk_blocks, List.mem_map] at hb
    obtain ⟨m, _, rfl⟩ := hb
    exact ⟨rfl, rfl, rfl, rfl⟩

/-- C8 witness: the default configuration (1 input channel, width 32,
growth 1, kernel 3, stride 2, dilation growth 8, stack size 4, 8
blocks) at block index 3. -/
theorem C8_backbone_channels_witness :
    ∃ b0 bn bn1 : DsTCNBlock,
      (mk_blocks 1 32 1 3 2 8 4 8)[0]? = some b0 ∧
      (mk_blocks 1 32 1 3 2 8 4 8)[3]? = some bn ∧
      (mk_blocks 1 32 1 3 2 8 4 8)[3 + 1]? = some bn1 ∧
      b0.in_ch = 1 ∧ b0.out_ch = 32 ∧
      bn1.in_ch = bn.out_ch ∧ bn1.out_ch = bn.out_ch + 1 ∧
      ∀ b ∈ mk_blocks 1 32 1 3 2 8 4 8,
        b.res_conv.in_ch = b.in_ch ∧ b.res_conv.out_ch = b.out_ch ∧
        b.res_conv.kernel_size = 1 ∧ b.res_conv.stride = b.stride :=
  C8_backbone_channels 1 32 1 3 2 8 4 8 3 (by omega)

theorem peak_nonneg (xs : List ℚ) : 0 ≤ peak xs := by
  induction xs with
  | nil => simp [peak]
  | cons x t ih => exact le_trans ih (le_max_right _ _)

theorem peak_map_div (xs : List ℚ) {m : ℚ} (hm : 0 < m) :
    peak (xs.map (fun x => x / m)) = peak xs / m := by
  induction xs with
  | nil => simp [peak]
  | cons x t ih =>
    simp only [List.map_cons, peak, List.foldr_cons] at *
    rw [ih, abs_div, abs_of_pos hm, max_div_div_right (le_of_lt hm)]

theorem peak_normalize_audio (xs : List ℚ) (h : peak xs ≠ 0) :
    peak (normalize_audio xs) = 1 := by
  have hpos : 0 < peak xs := lt_of_le_of_ne (peak_nonneg xs) (Ne.symm h)
  unfold normalize_audio
  rw [peak_map_div xs hpos, div_self h]

/-- C9: peak normalization is idempotent on every signal with nonzero
maximum absolute value, and the maximum absolute value equals 1 after
either one or two applications. -/
theorem C9_normalize_idempotent (xs : List ℚ) (h : peak xs ≠ 0) :
    normalize_audio (normalize_audio xs) = normalize_audio xs ∧
    peak (normalize_audio xs) = 1 := by
  have h1 : peak (normalize_audio xs) = 1 := peak_normalize_audio xs h
  refine ⟨?_, h1⟩
  conv_lhs => rw [normalize_audio, h1]
  simp

/-- C9 witness: the two-sample signal (1, -2), whose peak is 2. -/
theorem C9_normalize_idempotent_witness :
    peak [(1 : ℚ), -2] ≠ 0 ∧
    (normalize_audio (normalize_audio [(1 : ℚ), -2]) = normalize_audio [(1 : ℚ), -2] ∧
      peak (normalize_audio [(1 : ℚ), -2]) = 1) :=
  ⟨by norm_num [peak], C9_normalize_idempotent _ (by norm_num [peak])⟩

theorem getD_range_map (L j : ℕ) (f : ℕ → ℚ) (hj : j < L) :
    ((List.range L).map f).getD j 0 = f j := by
  rw [List.getD_eq_getElem?_getD, List.getElem?_map, List.getElem?_range hj]
  rfl

theorem getD_range_map_ge (L j : ℕ) (f : ℕ → ℚ) (hj : L ≤ j) :
    ((List.range L).map f).getD j 0 = 0 := by
  rw [List.getD_eq_getElem?_getD, List.getElem?_eq_none]
  · rfl
  · simpa using hj

/-- C3 counterexample: target of length 10 with a single downbeat (also
a beat) at index 1, downbeat shift -3, beat shift 0. The jittered
downbeat index is 1 - 3 = -2, which is negative, so by the claim no
event should appear anywhere in the re-rendered target; but the filter
only discards indices ≥ length, and writing index -2 lands at position
10 - 2 = 8, so both channels carry an event at position 8. -/
theorem C3_counterexample :
    jitter_target 10 [0, 1, 0, 0, 0, 0, 0, 0, 0, 0] [0, 1, 0, 0, 0, 0, 0, 0, 0, 0] 0 (-3) =
      ([0, 0, 0, 0, 0, 0, 0, 0, 1, 0], [0, 0, 0, 0, 0, 0, 0, 0, 1, 0]) ∧
    (jitter_target 10 [0, 1, 0, 0, 0, 0, 0, 0, 0, 0] [0, 1, 0, 0, 0, 0, 0, 0, 0, 0]
        0 (-3)).2.getD 8 0 = 1 := by
  constructor
  · decide
  · decide

/-- C3 (amended): every event of the re-rendered target comes from a
source event whose jittered index is < length; a jittered index ≥
length never produces an event, but a negative jittered index is NOT
excluded — it is rendered at position length + index by index
wrap-around, rather than being clipped. -/
theorem C3_jitter_events_sound (L : ℕ) (row0 row1 : List ℚ) (bs ds : ℤ) (j : ℕ)
    (h : (jitter_target L row0 row1 bs ds).1.getD j 0 = 1 ∨
      (jitter_target L row0 row1 bs ds).2.getD j 0 = 1) :
    ∃ i : ℕ, ∃ shift : ℤ,
      ((i ∈ jitter_source_beats L row0 row1 ∧ shift = bs) ∨
        (i ∈ jitter_source_downbeats L row1 ∧ shift = ds)) ∧
      (i : ℤ) + shift < (L : ℤ) ∧ (j : ℤ) = wrap_index L ((i : ℤ) + shift) := by
  by_cases hj : j < L
  · simp only [jitter_target] at h
    rw [getD_range_map _ _ _ hj, getD_range_map _ _ _ hj] at h
    have hmem :
        (j : ℤ) ∈ (((jitter_source_beats L row0 row1).map
            (fun (i : ℕ) => (i : ℤ) + bs)).filter (fun i => i < (L : ℤ))).map (wrap_index L) ∨
        (j : ℤ) ∈ (((jitter_source_downbeats L row1).map
            (fun (i : ℕ) => (i : ℤ) + ds)).filter (fun i => i < (L : ℤ))).map (wrap_index L) := by
      rcases h with h | h
      · by_cases hc : (j : ℤ) ∈ (((jitter_source_beats L row0 row1).map
            (fun (i : ℕ) => (i : ℤ) + bs)).filter (fun i => i < (L : ℤ))).map (wrap_index L) ∨
            (j : ℤ) ∈ (((jitter_source_downbeats L row1).map
              (fun (i : ℕ) => (i : ℤ) + ds)).filter (fun i => i < (L : ℤ))).map (wrap_index L)
        · exact hc
        · rw [if_neg hc] at h
          exact absurd h (by norm_num)
      · by_cases hc : (j : ℤ) ∈ (((jitter_source_downbeats L row1).map
            (fun (i : ℕ) => (i : ℤ) + ds)).filter (fun i => i < (L : ℤ))).map (wrap_index L)
        · exact Or.inr hc
        · rw [if_neg hc] at h
          exact absurd h (by norm_num)
    rcases hmem with hm | hm
    · simp only [List.mem_map, List.mem_filter, decide_eq_true_eq] at hm
      obtain ⟨x, ⟨⟨i, hi, rfl⟩, hlt⟩, hw⟩ := hm
      exact ⟨i, bs, Or.inl ⟨hi, rfl⟩, hlt, hw.symm⟩
    · simp only [List.mem_map, List.mem_filter, decide_eq_true_eq] at hm
      obtain ⟨x, ⟨⟨i, hi, rfl⟩, hlt⟩, hw⟩ := hm
      exact ⟨i, ds, Or.inr ⟨hi, rfl⟩, hlt, hw.symm⟩
  · exfalso
    simp only [jitter_target] at h
    rw [getD_range_map_ge _ _ _ (Nat.le_of_not_lt hj),
      getD_range_map_ge _ _ _ (Nat.le_of_not_lt hj)] at h
    rcases h with h | h <;> exact absurd h (by norm_num)

/-- C3 witness: a length-4 target with one plain beat at index 0 and
beat shift 1, whose jittered event lands in range at position 1. -/
theorem C3_jitter_events_sound_witness :
    ∃ i : ℕ, ∃ shift : ℤ,
      ((i ∈ jitter_source_beats 4 [1, 0, 0, 0] [0, 0, 0, 0] ∧ shift = 1) ∨
        (i ∈ jitter_source_downbeats 4 [0, 0, 0, 0] ∧ shift = 0)) ∧
      (i : ℤ) + shift < (4 : ℤ) ∧ ((1 : ℕ) : ℤ) = wrap_index 4 ((i : ℤ) + shift) :=
  C3_jitter_events_sound 4 [1, 0, 0, 0] [0, 0, 0, 0] 1 0 1 (Or.inl (by decide))

/-- C10: in the re-rendered jittered target, the surviving jittered
downbeat indices are written to both the beat row and the downbeat row,
so every active position of the downbeat row is also active in the beat
row. -/
theorem C10_jitter_downbeat_subset (L : ℕ) (row0 row1 : List ℚ) (bs ds : ℤ) (j : ℕ)
    (h : (jitter_target L row0 row1 bs ds).2.getD j 0 = 1) :
    (jitter_target L row0 row1 bs ds).1.getD j 0 = 1 := by
  by_cases hj : j < L
  · simp only [jitter_target] at h ⊢
    rw [getD_range_map _ _ _ hj] at h
    rw [getD_range_map _ _ _ hj]
    by_cases hc : (j : ℤ) ∈ (((jitter_source_downbeats L row1).map
        (fun (i : ℕ) => (i : ℤ) + ds)).filter (fun i => i < (L : ℤ))).map (wrap_index L)
    · rw [if_pos (Or.inr hc)]
    · rw [if_neg hc] at h
      exact absurd h (by norm_num)
  · exfalso
    simp only [jitter_target] at h
    rw [getD_range_map_ge _ _ _ (Nat.le_of_not_lt hj)] at h
    exact absurd h (by norm_num)

/-- C10 witness: a length-4 target with a downbeat at index 1 and no
shifts: position 1 is active in the downbeat row of the output, hence
also in its beat row. -/
theorem C10_jitter_downbeat_subset_witness :
    (jitter_target 4 [0, 1, 0, 0] [0, 1, 0, 0] 0 0).1.getD 1 0 = 1 :=
  C10_jitter_downbeat_subset 4 [0, 1, 0, 0] [0, 1, 0, 0] 0 0 1 (by decide)

theorem render_channel_length (N : ℕ) (samples : List ℕ) (sr factor : ℕ) :
    (render_channel N samples sr factor).length = N := by
  simp [render_channel]

theorem render_channel_getD_eq_one (N : ℕ) (samples : List ℕ) (sr factor j : ℕ) :
    (render_channel N samples sr factor).getD j 0 = 1 ↔
      j < N ∧ ∃ s ∈ samples, rescale_sample s sr factor < (N : ℚ) ∧
        (⌊rescale_sample s sr factor⌋).toNat = j := by
  by_cases hj : j < N
  · simp only [render_channel]
    rw [getD_range_map _ _ _ hj]
    by_cases hmem : j ∈ ((samples.map (fun s => rescale_sample s sr factor)).filter
        (fun q => q < (N : ℚ))).map (fun q => (⌊q⌋).toNat)
    · rw [if_pos hmem]
      simp only [List.mem_map, List.mem_filter, decide_eq_true_eq] at hmem
      obtain ⟨q, ⟨⟨s, hs, rfl⟩, hlt⟩, hq⟩ := hmem
      exact ⟨fun _ => ⟨hj, s, hs, hlt, hq⟩, fun _ => rfl⟩
    · rw [if_neg hmem]
      constructor
      · intro h0
        exact absurd h0 (by norm_num)
      · intro ⟨_, s, hs, hlt, hq⟩
        exact absurd (by
          simp only [List.mem_map, List.mem_filter, decide_eq_true_eq]
          exact ⟨rescale_sample s sr factor, ⟨⟨s, hs, rfl⟩, hlt⟩, hq⟩) hmem
  · simp only [render_channel]
    rw [getD_range_map_ge _ _ _ (Nat.le_of_not_lt hj)]
    constructor
    · intro h0
      exact absurd h0 (by norm_num)
    · intro ⟨hjN, _⟩
      exact absurd hjN hj

theorem render_channel_getD_mem (N : ℕ) (samples : List ℕ) (sr factor j : ℕ) :
    (render_channel N samples sr factor).getD j 0 = 0 ∨
      (render_channel N samples sr factor).getD j 0 = 1 := by
  by_cases hj : j < N
  · simp only [render_channel]
    rw [getD_range_map _ _ _ hj]
    by_cases hmem : j ∈ ((samples.map (fun s => rescale_sample s sr factor)).filter
        (fun q => q < (N : ℚ))).map (fun q => (⌊q⌋).toNat)
    · right
      rw [if_pos hmem]
    · left
      rw [if_neg hmem]
  · left
    simp only [render_channel]
    exact getD_range_map_ge _ _ _ (Nat.le_of_not_lt hj)

theorem render_channel_nil (N : ℕ) (sr factor : ℕ) :
    render_channel N [] sr factor = List.replicate N 0 := by
  simp only [render_channel, List.map_nil, List.filter_nil]
  rw [List.eq_replicate_iff]
  refine ⟨by simp, ?_⟩
  intro b hb
  simp only [List.mem_map] at hb
  obtain ⟨j, _, rfl⟩ := hb
  simp

/-- C5: the renderer's dense target has exactly
floor(audio_duration_seconds * target_rate) + 1 entries per channel; an
index of either channel is active exactly when some event of that
channel rescales below that length and truncates to the index (so
positions at or past the length are dropped, and coinciding events
collapse into a single 1); all values are 0 or 1; and with no events a
channel is all zeros rather than an error. -/
theorem C5_render_target (audio_len sr factor : ℕ) (bs ds : List ℕ) :
    (render_target audio_len sr factor bs ds).1.length = target_len audio_len sr factor ∧
    (render_target audio_len sr factor bs ds).2.length = target_len audio_len sr factor ∧
    ((target_len audio_len sr factor : ℤ) =
      ⌊((audio_len : ℚ) / (sr : ℚ)) * ((sr : ℚ) / (factor : ℚ))⌋ + 1) ∧
    (∀ j, (render_target audio_len sr factor bs ds).1.getD j 0 = 1 ↔
      (j < target_len audio_len sr factor ∧ ∃ s ∈ bs,
        rescale_sample s sr factor < (target_len audio_len sr factor : ℚ) ∧
        (⌊rescale_sample s sr factor⌋).toNat = j)) ∧
    (∀ j, (render_target audio_len sr factor bs ds).2.getD j 0 = 1 ↔
      (j < target_len audio_len sr factor ∧ ∃ s ∈ ds,
        rescale_sample s sr factor < (target_len audio_len sr factor : ℚ) ∧
        (⌊rescale_sample s sr factor⌋).toNat = j)) ∧
    (∀ j, (render_target audio_len sr factor bs ds).1.getD j 0 = 0 ∨
      (render_target audio_len sr factor bs ds).1.getD j 0 = 1) ∧
    (∀ j, (render_target audio_len sr factor bs ds).2.getD j 0 = 0 ∨
      (render_target audio_len sr factor bs ds).2.getD j 0 = 1) ∧
    (bs = [] →
      (render_target audio_len sr factor bs ds).1 =
        List.replicate (target_len audio_len sr factor) 0) ∧
    (ds = [] →
      (render_target audio_len sr factor bs ds).2 =
        List.replicate (target_len audio_len sr factor) 0) := by
  have hfloor : (0 : ℤ) ≤ ⌊((audio_len : ℚ) / (sr : ℚ)) * ((sr : ℚ) / (factor : ℚ))⌋ := by
    apply Int.floor_nonneg.mpr
    positivity
  refine ⟨render_channel_length _ _ _ _, render_channel_length _ _ _ _, ?_, ?_, ?_, ?_, ?_, ?_, ?_⟩
  · simp only [target_len]
    push_cast [Int.toNat_of_nonneg hfloor]
    ring
  · intro j
    exact render_channel_getD_eq_one _ _ _ _ _
  · intro j
    exact render_channel_getD_eq_one _ _ _ _ _
  · intro j
    exact render_channel_getD_mem _ _ _ _ _
  · intro j
    exact render_channel_getD_mem _ _ _ _ _
  · intro hbs
    rw [show (render_target audio_len sr factor bs ds).1 =
      render_channel (target_len audio_len sr factor) bs sr factor from rfl, hbs]
    exact render_channel_nil _ _ _
  · intro hds
    rw [show (render_target audio_len sr factor bs ds).2 =
      render_channel (target_len audio_len sr factor) ds sr factor from rfl, hds]
    exact render_channel_nil _ _ _

/-- C5 witness: audio of 10 samples at rate 5 with factor 2 gives a
6-sample target; beat events at source samples 3, 7 and 100 rescale to
1.5, 3.5 and 50, of which 50 is dropped; the downbeat channel is empty
and renders as all zeros. -/
theorem C5_render_target_witness :
    (render_target 10 5 2 [3, 7, 100] []).1.length = target_len 10 5 2 ∧
    (render_target 10 5 2 [3, 7, 100] []).2 = List.replicate (target_len 10 5 2) 0 := by
  have h := C5_render_target 10 5 2 [3, 7, 100] []
  exact ⟨h.1, h.2.2.2.2.2.2.2.2 rfl⟩

end BeatRetina
